import Mathlib

/-!
Shallow embedding of the microsite content resolution engine of
`src/ddb/src/microsites.rs` (crate `ddb` of aci-export), together with
theorems checking the specification's claims about it.

The Drupal database is modelled as explicit lists of rows, one list per
table touched by the queries.  SQL constructs are translated as follows:

* `JOIN` (inner) over a matching condition: `filter`/`flatMap` over all
  matching rows (full join fan-out);
* `LEFT JOIN` against a per-field side table that holds at most one row
  per entity in practice: `List.find?` (first row, matching the
  "arbitrary/first row" tolerance of the spec, §7(c)), absent row giving
  `none`;
* `fetch_optional` / `LIMIT 1`: `List.find?`;
* `ORDER BY k1, k2`: `List.insertionSort` with the lexicographic key
  `(k1, k2)`; MySQL sorts `NULL` before every value in ascending order,
  which `nullFirstKey` reproduces;
* `UNION` (which deduplicates in SQL): `List.dedup` of the appended parts.

Iteration that is not structurally recursive (Rust's `str::replace` and
the regex scan of `extract_media_urls`) is written with an explicit fuel
argument; every step consumes at least one character, so fuel equal to
the length of the subject string makes the fuelled function agree with
the unbounded loop.
-/

namespace ACI

/-- A row of `node_field_data`: Drupal node with type tag, title, status. -/
structure Node where
  nid : Nat
  type : String
  title : String
  status : Int
deriving DecidableEq

/-- A menu link: one row of `menu_link_content` joined (by `id`) with its
`menu_link_content_data` row, as used by the queries of `pages_for_club`. -/
structure MenuLink where
  id : Nat
  uuid : String
  linkUri : String
  menuName : String
  title : String
  weight : Int
  parent : String
  enabled : Int
deriving DecidableEq

/-- A row of `node__field_featured_pages` (repeatable reference field). -/
structure FeaturedRef where
  entity_id : Nat
  delta : Nat
  target_id : Nat
deriving DecidableEq

/-- A row of `paragraph__field_button` (uri and title columns). -/
structure ButtonRow where
  entity_id : Nat
  uri : Option String
  title : Option String
deriving DecidableEq

/-- The slice of the Drupal store read by `microsites.rs`. -/
structure Db where
  /-- `node_field_data` -/
  nodes : List Node
  /-- `node__field_club_number` (`entity_id`, value column, possibly NULL) -/
  clubNumbers : List (Nat × Option Int)
  /-- `menu_link_content` + `menu_link_content_data` -/
  menuLinks : List MenuLink
  /-- `node__field_page_title` -/
  pageTitles : List (Nat × String)
  /-- `node__body` -/
  bodies : List (Nat × String)
  /-- `node__field_summary` -/
  summaries : List (Nat × String)
  /-- `node__field_body` -/
  fieldBodies : List (Nat × String)
  /-- `node__field_hero_banner_image` (entity -> media target) -/
  heroRefs : List (Nat × Nat)
  /-- `node__field_navigatio_` (entity -> media target) -/
  navRefs : List (Nat × Nat)
  /-- `media__field_media_image` (media entity -> fid) -/
  mediaImages : List (Nat × Nat)
  /-- `file_managed` (fid -> uri) -/
  files : List (Nat × String)
  /-- `node__field_featured_pages` -/
  featuredRefs : List FeaturedRef
  /-- `paragraph__field_headline` -/
  headlines : List (Nat × String)
  /-- `paragraph__field_summary_text_2` -/
  summaryTexts : List (Nat × String)
  /-- `paragraph__field_button` -/
  buttons : List ButtonRow
  /-- `paragraph__field_image` (paragraph -> media target) -/
  imageRefs : List (Nat × Nat)

/-- First value of a keyed side table (`LEFT JOIN` + at-most-one row). -/
def lookupVal {α : Type} (tbl : List (Nat × α)) (k : Nat) : Option α :=
  (tbl.find? (fun r => r.1 == k)).map (fun r => r.2)

/-- The `PageRow` struct of the source (sqlx row of the page queries). -/
structure PageRow where
  nid : Nat
  title : String
  page_title : Option String
  body_value : Option String
  summary_value : Option String
  field_body_value : Option String
  status : Int
  menu_id : Option Nat
  menu_title : Option String
  menu_weight : Option Int
  menu_parent : Option String
  hero_image_uri : Option String
  nav_image_uri : Option String
deriving DecidableEq

/-- The `MicrositePage` struct of the source. -/
structure MicrositePage where
  nid : Nat
  title : String
  body_html : String
  status : Bool
  menu_id : Option Nat
  menu_title : Option String
  menu_weight : Option Int
  menu_parent : Option String
  hero_image : Option String
  nav_image : Option String
deriving DecidableEq

/-- Rust `Vec<String>::join(sep)`. -/
def joinSep (sep : String) : List String → String
  | [] => ""
  | [s] => s
  | s :: rest => s ++ sep ++ joinSep sep rest

/-- `impl From<PageRow> for MicrositePage` (the Content Fuser): title
override via `field_page_title`, body fused from summary, body and
`field_body` joined by blank lines. -/
def micrositePageOfRow (row : PageRow) : MicrositePage :=
  let title := row.page_title.getD row.title
  let parts : List String := []
  let parts := match row.summary_value with
    | some summary => parts ++ [summary]
    | none => parts
  let parts := match row.body_value with
    | some body => parts ++ [body]
    | none => parts
  let parts := match row.field_body_value with
    | some field_body => parts ++ [field_body]
    | none => parts
  { nid := row.nid
    title := title
    body_html := joinSep "\n\n" parts
    status := row.status == 1
    menu_id := row.menu_id
    menu_title := row.menu_title
    menu_weight := row.menu_weight
    menu_parent := row.menu_parent
    hero_image := row.hero_image_uri
    nav_image := row.nav_image_uri }

/-- `drupal_uri_to_path`: strip the leading `public://` scheme and graft the
remainder onto `/sites/default/files/`; `none` for any other input. -/
def drupal_uri_to_path (uri : String) : Option String :=
  if "public://".data.isPrefixOf uri.data then
    some ("/sites/default/files/" ++ String.mk (uri.data.drop "public://".data.length))
  else
    none

/-- One step of Rust `str::replace`, on character lists, with fuel; every
step consumes at least one character of the subject, so fuel equal to the
subject's length gives the exact replace-all semantics (leftmost,
non-overlapping occurrences). -/
def replaceAllGo (pat rep : List Char) : Nat → List Char → List Char
  | 0, s => s
  | _ + 1, [] => []
  | fuel + 1, c :: rest =>
    if pat ≠ [] ∧ pat.isPrefixOf (c :: rest) then
      rep ++ replaceAllGo pat rep fuel ((c :: rest).drop pat.length)
    else
      c :: replaceAllGo pat rep fuel rest

/-- Rust `str::replace`: replace every occurrence of `pat` in `s` by `rep`. -/
def rustReplace (s pat rep : String) : String :=
  String.mk (replaceAllGo pat.data rep.data s.data.length s.data)

/-- Whether `pat` occurs as a contiguous run inside `s`. -/
def containsSeq (s pat : List Char) : Bool :=
  match s with
  | [] => pat.isEmpty
  | c :: rest => pat.isPrefixOf (c :: rest) || containsSeq rest pat

/-- Comparison through a key into a linear order; used to model `ORDER BY`. -/
def keyRel {α β : Type _} [LinearOrder β] (key : α → β) : α → α → Prop :=
  fun a b => key a ≤ key b

instance keyRelDecidable {α β : Type _} [LinearOrder β] (key : α → β) :
    DecidableRel (keyRel key) :=
  fun a b => inferInstanceAs (Decidable (key a ≤ key b))

instance keyRelTotal {α β : Type _} [LinearOrder β] (key : α → β) :
    IsTotal α (keyRel key) :=
  ⟨fun a b => le_total (key a) (key b)⟩

instance keyRelTrans {α β : Type _} [LinearOrder β] (key : α → β) :
    IsTrans α (keyRel key) :=
  ⟨fun _ _ _ hab hbc => le_trans hab hbc⟩

/-- MySQL ascending key for a nullable integer: `NULL` sorts before every
value in MySQL ascending order. -/
def nullFirstKey : Option Int → Nat × Int
  | none => (0, 0)
  | some v => (1, v)

/-- The `ClubMicrosite` struct of the source. -/
structure ClubMicrosite where
  club_nid : Nat
  club_number : Option Int
  club_name : String
  homepage_nid : Nat
  is_intraclub : Bool
deriving DecidableEq

/-- `cn.field_club_number_value` after the `LEFT JOIN` on `entity_id`:
absent row or NULL value both give `none`. -/
def clubNumberOf (db : Db) (nid : Nat) : Option Int :=
  (db.clubNumbers.find? (fun r => r.1 == nid)).bind (fun r => r.2)

/-- The two hardcoded override pairs of the `UNION` branch. -/
def overridePairs : List (Nat × Nat) := [(51008, 55629), (47596, 50698)]

/-- One result row of `clubs_with_microsites` built from a club node and a
homepage node. -/
def clubRowOf (db : Db) (club hp : Node) : ClubMicrosite :=
  { club_nid := club.nid
    club_number := clubNumberOf db club.nid
    club_name := club.title
    homepage_nid := hp.nid
    is_intraclub := (clubNumberOf db club.nid).isNone }

/-- First branch of the `UNION`: join homepages to clubs by exact title. -/
def titleMatchRows (db : Db) : List ClubMicrosite :=
  (db.nodes.filter (fun hp => hp.type == "microsite_homepage")).flatMap fun hp =>
    (db.nodes.filter (fun club =>
      club.title == hp.title && club.type == "ssp_club")).map fun club =>
      clubRowOf db club hp

/-- Second branch of the `UNION`: the hardcoded override pairs, both sides
re-validated against their type tags. -/
def overrideRows (db : Db) : List ClubMicrosite :=
  (db.nodes.filter (fun club => club.type == "ssp_club")).flatMap fun club =>
    (db.nodes.filter (fun hp =>
      overridePairs.contains (club.nid, hp.nid) &&
        hp.type == "microsite_homepage")).map fun hp =>
      clubRowOf db club hp

/-- Sort key of `ORDER BY is_intraclub, club_number, club_name` (MySQL
ascending order: NULL club numbers sort before values within a group). -/
def clubSortKey (c : ClubMicrosite) : Lex (Lex (Nat × Lex (Nat × Int)) × String) :=
  toLex (toLex (cond c.is_intraclub 1 0, toLex (nullFirstKey c.club_number)), c.club_name)

/-- `clubs_with_microsites`: title-match rows `UNION` override rows (SQL
`UNION` deduplicates), ordered by intraclub flag, club number, club name. -/
def clubs_with_microsites (db : Db) : List ClubMicrosite :=
  List.insertionSort (keyRel clubSortKey) ((titleMatchRows db ++ overrideRows db).dedup)

/-- The homepage's menu link: first `microsites` menu row whose
`link__uri` is `entity:node/{nid}` (the `LIMIT 1` / `fetch_optional`). -/
def menuOf (db : Db) (nid : Nat) : Option MenuLink :=
  db.menuLinks.find? fun m =>
    m.linkUri == "entity:node/" ++ toString nid && m.menuName == "microsites"

/-- The first query of `pages_for_club`: the homepage's menu UUID. -/
def homepageUuid (db : Db) (nid : Nat) : Option String :=
  (menuOf db nid).map (fun m => m.uuid)

/-- Project one node into a `PageRow`, pulling each optional field from its
side table and the menu metadata from the given menu link. -/
def pageRowOf (db : Db) (nd : Node) (mld : Option MenuLink) : PageRow :=
  { nid := nd.nid
    title := nd.title
    page_title := lookupVal db.pageTitles nd.nid
    body_value := lookupVal db.bodies nd.nid
    summary_value := lookupVal db.summaries nd.nid
    field_body_value := lookupVal db.fieldBodies nd.nid
    status := nd.status
    menu_id := mld.map (fun m => m.id)
    menu_title := mld.map (fun m => m.title)
    menu_weight := mld.map (fun m => m.weight)
    menu_parent := mld.map (fun m => m.parent)
    hero_image_uri := ((lookupVal db.heroRefs nd.nid).bind
      (lookupVal db.mediaImages)).bind (lookupVal db.files)
    nav_image_uri := ((lookupVal db.navRefs nd.nid).bind
      (lookupVal db.mediaImages)).bind (lookupVal db.files) }

/-- The child-page query: all `microsites` menu rows with the given parent
reference and `enabled = 1`, joined to the nodes their `link__uri` targets. -/
def childRows (db : Db) (parentRef : String) : List PageRow :=
  (db.menuLinks.filter (fun m =>
    m.menuName == "microsites" && m.parent == parentRef && m.enabled == 1)).flatMap fun m =>
    (db.nodes.filter (fun nd =>
      m.linkUri == "entity:node/" ++ toString nd.nid)).map fun nd =>
      pageRowOf db nd (some m)

/-- Sort key of `ORDER BY mld.weight, n.title` on the child-page query. -/
def childSortKey (r : PageRow) : Lex (Lex (Nat × Int) × String) :=
  toLex (toLex (nullFirstKey r.menu_weight), r.title)

/-- The `FeaturedPageRow` struct of the source. -/
structure FeaturedPageRow where
  headline : Option String
  summary_text_2 : Option String
  button_uri : Option String
  button_title : Option String
  image_uri : Option String
deriving DecidableEq

/-- Project one featured-pages paragraph target into a `FeaturedPageRow`
(the four `LEFT JOIN`s of the featured-pages query). -/
def featuredRowOf (db : Db) (target : Nat) : FeaturedPageRow :=
  { headline := lookupVal db.headlines target
    summary_text_2 := lookupVal db.summaryTexts target
    button_uri := (db.buttons.find? (fun r => r.entity_id == target)).bind (fun r => r.uri)
    button_title := (db.buttons.find? (fun r => r.entity_id == target)).bind (fun r => r.title)
    image_uri := ((lookupVal db.imageRefs target).bind
      (lookupVal db.mediaImages)).bind (lookupVal db.files) }

/-- Render one featured-pages paragraph, appending to the accumulated
markup: image (if present, `public://` rewritten by substring replacement),
headline, text block, button link (title defaulting to the uri). -/
def renderFeaturedRow (html : String) (row : FeaturedPageRow) : String :=
  let html := match row.image_uri with
    | some uri =>
      html ++ "<p><img src=\"" ++ rustReplace uri "public://" "/sites/default/files/" ++
        "\" alt=\"\"></p>\n"
    | none => html
  let html := match row.headline with
    | some headline => html ++ "<h3>" ++ headline ++ "</h3>\n"
    | none => html
  let html := match row.summary_text_2 with
    | some content => html ++ content ++ "\n"
    | none => html
  match row.button_uri with
  | some uri =>
    html ++ "<p><a href=\"" ++ uri ++ "\">" ++ row.button_title.getD uri ++ "</a></p>\n"
  | none => html

/-- `featured_pages_content`: the paragraphs referenced from
`node__field_featured_pages` for this node, ordered by `delta`, rendered in
sequence into one markup string (empty when there are no rows). -/
def featured_pages_content (db : Db) (nid : Nat) : String :=
  let rows := (List.insertionSort (keyRel (fun r : FeaturedRef => r.delta))
      (db.featuredRefs.filter (fun r => r.entity_id == nid))).map
    (fun r => featuredRowOf db r.target_id)
  if rows.isEmpty then "" else rows.foldl renderFeaturedRow ""

/-- Splice the featured-pages content into an already fused page body: no
change when the featured content is empty, otherwise set it as the body or
append it after a blank line. -/
def withFeatured (db : Db) (page : MicrositePage) : MicrositePage :=
  let featured := featured_pages_content db page.nid
  if featured.isEmpty then page
  else if page.body_html.isEmpty then { page with body_html := featured }
  else { page with body_html := page.body_html ++ "\n\n" ++ featured }

/-- `pages_for_club`: the homepage page (when its node row exists) followed
by the enabled `microsites`-menu children of the homepage's menu entry,
ordered by menu weight then node title; every page gets its featured-pages
content spliced in. -/
def pages_for_club (db : Db) (homepage_nid : Nat) : List MicrositePage :=
  let hpPages : List MicrositePage :=
    match db.nodes.find? (fun nd => nd.nid == homepage_nid) with
    | some nd =>
      [withFeatured db (micrositePageOfRow (pageRowOf db nd (menuOf db homepage_nid)))]
    | none => []
  let childPages : List MicrositePage :=
    match homepageUuid db homepage_nid with
    | some uuid =>
      (List.insertionSort (keyRel childSortKey)
          (childRows db ("menu_link_content:" ++ uuid))).map
        (fun row => withFeatured db (micrositePageOfRow row))
    | none => []
  hpPages ++ childPages

/-- Quote characters of the media regex character classes. -/
def isQuote (c : Char) : Bool := c == '"' || c == '\''

/-- The public storage path segment of the media regex. -/
def litSeg : List Char := "/sites/default/files/".data

/-- Maximal run of non-quote characters and the remaining suffix
(the greedy occurrence class of the media regex). -/
def takeRun : List Char → List Char × List Char
  | [] => ([], [])
  | c :: rest =>
    if isQuote c then ([], c :: rest)
    else
      let p := takeRun rest
      (c :: p.1, p.2)

/-- After the literal path segment: a nonempty run of non-quote characters
followed by a closing quote; returns the run and the suffix after the
closing quote. -/
def tryTail (s : List Char) : Option (List Char × List Char) :=
  match takeRun s with
  | (_, []) => none
  | (run, q :: rem) =>
    if run.isEmpty then none
    else if isQuote q then some (run, rem) else none

/-- The lazy part of the capture: consume non-quote characters until an
occurrence of the literal path segment whose continuation succeeds; returns
the capture (consumed characters, the segment and the trailing run) and the
suffix after the whole match. -/
def lazyFind : List Char → List Char → Option (List Char × List Char)
  | [], _ => none
  | c :: rest, acc =>
    match (if litSeg.isPrefixOf (c :: rest) then
        tryTail ((c :: rest).drop litSeg.length) else none) with
    | some (run, rem) => some (acc ++ litSeg ++ run, rem)
    | none => if isQuote c then none else lazyFind rest (acc ++ [c])

/-- The `(?:src|href)=` alternative of the media regex. -/
def tryMatchTag (s : List Char) : Option (List Char) :=
  if "src=".data.isPrefixOf s then some (s.drop 4)
  else if "href=".data.isPrefixOf s then some (s.drop 5)
  else none

/-- Try to match the whole media regex at the head of `s`; on success,
return the captured quoted value and the suffix after the match. -/
def tryMatch (s : List Char) : Option (List Char × List Char) :=
  match tryMatchTag s with
  | none => none
  | some s1 =>
    match s1 with
    | [] => none
    | q :: s2 => if isQuote q then lazyFind s2 [] else none

/-- `captures_iter`: leftmost matches, resuming after each whole match;
fuelled (each step consumes at least one character, so fuel equal to the
subject's length is enough). -/
def scanGo : Nat → List Char → List (List Char)
  | 0, _ => []
  | _ + 1, [] => []
  | fuel + 1, c :: rest =>
    match tryMatch (c :: rest) with
    | some (cap, rem) => cap :: scanGo fuel rem
    | none => scanGo fuel rest

/-- `extract_media_urls`: all quoted `src=`/`href=` values that contain
`/sites/default/files/`, in order of appearance. -/
def extract_media_urls (html : String) : List String :=
  (scanGo html.data.length html.data).map String.mk

/-! ### Generic helper lemmas -/

theorem mk_data_eq (s : String) : String.mk s.data = s := rfl

theorem isPrefixOf_append_self (p l : List Char) : p.isPrefixOf (p ++ l) = true := by
  induction p with
  | nil => simp [List.isPrefixOf]
  | cons c rest ih => simp [List.isPrefixOf, ih]

theorem eq_append_of_isPrefixOf {p s : List Char} (h : p.isPrefixOf s = true) :
    s = p ++ s.drop p.length := by
  induction p generalizing s with
  | nil => simp
  | cons c rest ih =>
    cases s with
    | nil => simp [List.isPrefixOf] at h
    | cons c' s' =>
      simp only [List.isPrefixOf, Bool.and_eq_true, beq_iff_eq] at h
      obtain ⟨rfl, h2⟩ := h
      simpa using ih h2

/-! ### C1: the Content Fuser -/

/-- C1.  For every page projection the Content Fuser produces the pair
(effective title, fused body): the effective title is the `field_page_title`
override when present and otherwise the node title, and the fused body is
the present fragments among summary, primary body and secondary custom body
concatenated in that fixed order with exactly one blank line between each
pair of present fragments and nothing contributed by absent fragments; in
particular a lone summary "S" yields "S", body "B" with extra "E" yields
"B\n\nE", and all three absent yields "". -/
theorem content_fuser_spec :
    (∀ row : PageRow,
      (match row.page_title with
        | some t => (micrositePageOfRow row).title = t
        | none => (micrositePageOfRow row).title = row.title) ∧
      (micrositePageOfRow row).body_html =
        (match row.summary_value, row.body_value, row.field_body_value with
          | none, none, none => ""
          | some s, none, none => s
          | none, some b, none => b
          | none, none, some e => e
          | some s, some b, none => s ++ "\n\n" ++ b
          | some s, none, some e => s ++ "\n\n" ++ e
          | none, some b, some e => b ++ "\n\n" ++ e
          | some s, some b, some e => s ++ "\n\n" ++ b ++ "\n\n" ++ e)) ∧
    (micrositePageOfRow
      { nid := 1, title := "t", page_title := none, body_value := none,
        summary_value := some "S", field_body_value := none, status := 1,
        menu_id := none, menu_title := none, menu_weight := none,
        menu_parent := none, hero_image_uri := none,
        nav_image_uri := none }).body_html = "S" ∧
    (micrositePageOfRow
      { nid := 1, title := "t", page_title := none, body_value := some "B",
        summary_value := none, field_body_value := some "E", status := 1,
        menu_id := none, menu_title := none, menu_weight := none,
        menu_parent := none, hero_image_uri := none,
        nav_image_uri := none }).body_html = "B\n\nE" ∧
    (micrositePageOfRow
      { nid := 1, title := "t", page_title := none, body_value := none,
        summary_value := none, field_body_value := none, status := 1,
        menu_id := none, menu_title := none, menu_weight := none,
        menu_parent := none, hero_image_uri := none,
        nav_image_uri := none }).body_html = "" := by
  refine ⟨fun row => ?_, rfl, rfl, rfl⟩
  obtain ⟨nid, title, pt, bv, sv, fbv, st, mi, mt, mw, mp, hi, ni⟩ := row
  cases pt <;> cases sv <;> cases bv <;> cases fbv <;>
    exact ⟨rfl, by simp [micrositePageOfRow, joinSep, String.append_assoc]⟩

/-! ### C7: `drupal_uri_to_path` -/

/-- C7.  `drupal_uri_to_path` returns `some ("/sites/default/files/" ++ rest)`
exactly when the input equals `"public://" ++ rest`, and `none` for every
input not of that shape; in particular `public://a/b.jpg` maps to
`/sites/default/files/a/b.jpg`. -/
theorem drupal_uri_to_path_append (rest : String) :
    drupal_uri_to_path ("public://" ++ rest) = some ("/sites/default/files/" ++ rest) := by
  unfold drupal_uri_to_path
  rw [String.data_append, if_pos (isPrefixOf_append_self _ _)]
  have hd : ("public://".data ++ rest.data).drop "public://".data.length = rest.data :=
    List.drop_left _ _
  rw [hd, mk_data_eq]

theorem drupal_uri_to_path_spec :
    (∀ rest : String,
      drupal_uri_to_path ("public://" ++ rest) = some ("/sites/default/files/" ++ rest)) ∧
    (∀ uri out : String, drupal_uri_to_path uri = some out →
      ∃ rest : String, uri = "public://" ++ rest ∧ out = "/sites/default/files/" ++ rest) ∧
    drupal_uri_to_path "public://a/b.jpg" = some "/sites/default/files/a/b.jpg" := by
  refine ⟨drupal_uri_to_path_append, fun uri out h => ?_, rfl⟩
  · unfold drupal_uri_to_path at h
    split at h
    · rename_i hp
      refine ⟨String.mk (uri.data.drop "public://".data.length), ?_, ?_⟩
      · apply String.ext
        rw [String.data_append]
        exact eq_append_of_isPrefixOf hp
      · exact ((Option.some.injEq _ _).mp h).symm
    · exact absurd h (by simp)

/-! ### C5: the renderer's image-source rewrite vs `drupal_uri_to_path` -/

theorem replaceAllGo_of_not_contains {pat : List Char} (rep : List Char)
    (fuel : Nat) {s : List Char} (h : containsSeq s pat = false) :
    replaceAllGo pat rep fuel s = s := by
  induction fuel generalizing s with
  | zero => rfl
  | succ fuel ih =>
    cases s with
    | nil => rfl
    | cons c rest =>
      simp only [containsSeq, Bool.or_eq_false_iff] at h
      rw [replaceAllGo, if_neg (fun hc => by simp [h.1] at hc)]
      rw [ih h.2]

theorem replaceAllGo_append_of_not_contains (pat rep : List Char)
    (hpat : pat ≠ []) {fuel : Nat} (hfuel : 1 ≤ fuel) {tail : List Char}
    (h : containsSeq tail pat = false) :
    replaceAllGo pat rep fuel (pat ++ tail) = rep ++ tail := by
  cases fuel with
  | zero => omega
  | succ fuel =>
    cases hp : pat with
    | nil => exact absurd hp hpat
    | cons p ps =>
      rw [hp] at h hpat
      simp only [List.cons_append, replaceAllGo]
      rw [if_pos ⟨hpat, isPrefixOf_append_self (p :: ps) tail⟩]
      simp only [List.append_eq]
      have hd : (p :: (ps ++ tail)).drop (p :: ps).length = tail := List.drop_left (p :: ps) tail
      rw [hd, replaceAllGo_of_not_contains rep fuel h]

/-- C5 counterexample.  The renderer's image rewrite is a substring
replacement that never yields an absent path: on the non-public URI
`private://secret.pdf` it renders the URI untouched inside the image tag,
while `drupal_uri_to_path` yields `none` — so the two rewrites do not agree
on every input URI. -/
theorem featured_image_rewrite_cex :
    renderFeaturedRow ""
      { headline := none, summary_text_2 := none, button_uri := none,
        button_title := none, image_uri := some "private://secret.pdf" } =
      "<p><img src=\"private://secret.pdf\" alt=\"\"></p>\n" ∧
    drupal_uri_to_path "private://secret.pdf" = none := by
  exact ⟨by decide, by decide⟩

/-- C5 (amended).  On every attached image URI of the form `public://path`
whose remainder does not itself contain `public://`, the renderer's rewrite
produces `/sites/default/files/path`, agreeing with `drupal_uri_to_path`;
on other URIs the renderer keeps the (partially rewritten) URI rather than
omitting the image, so the two rewrites need not agree. -/
theorem featured_image_rewrite_agree (path : String)
    (h : containsSeq path.data "public://".data = false) :
    rustReplace ("public://" ++ path) "public://" "/sites/default/files/" =
        "/sites/default/files/" ++ path ∧
      drupal_uri_to_path ("public://" ++ path) =
        some ("/sites/default/files/" ++ path) := by
  refine ⟨?_, drupal_uri_to_path_append path⟩
  have h9 : "public://".data.length = 9 := by decide
  have hfuel : 1 ≤ ("public://".data ++ path.data).length := by
    rw [List.length_append, h9]
    omega
  have core := replaceAllGo_append_of_not_contains "public://".data
    "/sites/default/files/".data (by decide) hfuel h
  unfold rustReplace
  apply String.ext
  simp only [String.data_append]
  exact core

/-- C5 witness: the agreement theorem applied at `path = "a/b.jpg"`. -/
theorem featured_image_rewrite_agree_witness :
    containsSeq "a/b.jpg".data "public://".data = false ∧
    (rustReplace ("public://" ++ "a/b.jpg") "public://" "/sites/default/files/" =
        "/sites/default/files/" ++ "a/b.jpg" ∧
      drupal_uri_to_path ("public://" ++ "a/b.jpg") =
        some ("/sites/default/files/" ++ "a/b.jpg")) :=
  ⟨by decide, featured_image_rewrite_agree "a/b.jpg" (by decide)⟩

/-! ### C6: `extract_media_urls` -/

/-- The captures appear in the subject, in order and without overlap:
`chainedIn h [c1, ..., cn]` holds when `h = x0 ++ c1 ++ x1 ++ ... ++ cn ++ xn`
for some fillers `xi`. -/
def chainedIn : List Char → List (List Char) → Prop
  | _, [] => True
  | h, cap :: caps => ∃ x rest, h = x ++ cap ++ rest ∧ chainedIn rest caps

theorem takeRun_append (s : List Char) : (takeRun s).1 ++ (takeRun s).2 = s := by
  induction s with
  | nil => rfl
  | cons c rest ih =>
    by_cases hq : isQuote c = true
    · simp [takeRun, hq]
    · simp only [takeRun, Bool.not_eq_true] at hq ⊢
      rw [hq]
      simpa using ih

theorem tryTail_decomp {s run rem : List Char} (h : tryTail s = some (run, rem)) :
    ∃ q, s = run ++ q :: rem := by
  have hta := takeRun_append s
  unfold tryTail at h
  split at h
  · exact absurd h (by simp)
  · rename_i run' q rem' heq
    rw [heq] at hta
    split at h
    · exact absurd h (by simp)
    · split at h
      · obtain ⟨rfl, rfl⟩ : run' = run ∧ rem' = rem := by simpa using h
        exact ⟨q, hta.symm⟩
      · exact absurd h (by simp)

theorem lazyFind_decomp :
    ∀ {s : List Char} (acc : List Char) {cap rem : List Char},
      lazyFind s acc = some (cap, rem) →
      ∃ mid q, cap = acc ++ mid ∧ s = mid ++ q :: rem ∧ ∃ a b, mid = a ++ litSeg ++ b := by
  intro s
  induction s with
  | nil => intro acc cap rem h; exact absurd h (by simp [lazyFind])
  | cons c rest ih =>
    intro acc cap rem h
    rw [lazyFind] at h
    split at h
    · rename_i run rem' heq
      split at heq
      · rename_i hpre
        obtain ⟨q, hq⟩ := tryTail_decomp heq
        obtain ⟨rfl, rfl⟩ : acc ++ litSeg ++ run = cap ∧ rem' = rem := by simpa using h
        refine ⟨litSeg ++ run, q, by simp [List.append_assoc], ?_, [], run, by simp⟩
        have hs : c :: rest = litSeg ++ (c :: rest).drop litSeg.length :=
          eq_append_of_isPrefixOf hpre
        rw [hs, hq]
        simp [List.append_assoc]
      · exact absurd heq (by simp)
    · split at h
      · exact absurd h (by simp)
      · obtain ⟨mid, q, hcap, hrest, a, b, hmid⟩ := ih (acc ++ [c]) h
        refine ⟨c :: mid, q, ?_, by simp [hrest], c :: a, b, by simp [hmid]⟩
        rw [hcap]
        simp

theorem tryMatchTag_decomp {s s1 : List Char} (h : tryMatchTag s = some s1) :
    ∃ t, s = t ++ s1 := by
  unfold tryMatchTag at h
  split at h
  · rename_i hpre
    refine ⟨"src=".data, ?_⟩
    have := eq_append_of_isPrefixOf hpre
    rw [show "src=".data.length = 4 from by decide] at this
    rw [← Option.some.inj h]
    exact this
  · split at h
    · rename_i hpre
      refine ⟨"href=".data, ?_⟩
      have := eq_append_of_isPrefixOf hpre
      rw [show "href=".data.length = 5 from by decide] at this
      rw [← Option.some.inj h]
      exact this
    · exact absurd h (by simp)

theorem tryMatch_decomp {s cap rem : List Char} (h : tryMatch s = some (cap, rem)) :
    (∃ x q, s = x ++ cap ++ q :: rem) ∧ ∃ a b, cap = a ++ litSeg ++ b := by
  unfold tryMatch at h
  split at h
  · exact absurd h (by simp)
  · rename_i s1 htag
    split at h
    · exact absurd h (by simp)
    · rename_i q0 s2
      split at h
      · obtain ⟨mid, q, hcap, hs2, hcont⟩ := lazyFind_decomp [] h
        simp only [List.nil_append] at hcap
        subst hcap
        obtain ⟨t, hts⟩ := tryMatchTag_decomp htag
        refine ⟨⟨t ++ [q0], q, ?_⟩, hcont⟩
        rw [hts, hs2]
        simp [List.append_assoc]
      · exact absurd h (by simp)

theorem chainedIn_prepend {rest : List Char} {caps : List (List Char)}
    (pre : List Char) (h : chainedIn rest caps) : chainedIn (pre ++ rest) caps := by
  cases caps with
  | nil => trivial
  | cons cap caps =>
    obtain ⟨x, r, hx, hr⟩ := h
    exact ⟨pre ++ x, r, by rw [hx]; simp [List.append_assoc], hr⟩

theorem scanGo_chained : ∀ (fuel : Nat) (s : List Char), chainedIn s (scanGo fuel s) := by
  intro fuel
  induction fuel with
  | zero => intro s; trivial
  | succ fuel ih =>
    intro s
    cases s with
    | nil => trivial
    | cons c rest =>
      rw [scanGo]
      split
      · rename_i cap rem hm
        obtain ⟨⟨x, q, hx⟩, _⟩ := tryMatch_decomp hm
        exact ⟨x, q :: rem, by simpa [List.append_assoc] using hx,
          chainedIn_prepend [q] (ih rem)⟩
      · exact chainedIn_prepend [c] (ih rest)

theorem scanGo_contains :
    ∀ (fuel : Nat) (s cap : List Char), cap ∈ scanGo fuel s →
      ∃ a b, cap = a ++ litSeg ++ b := by
  intro fuel
  induction fuel with
  | zero => intro s cap h; exact absurd h (by simp [scanGo])
  | succ fuel ih =>
    intro s cap h
    cases s with
    | nil => exact absurd h (by simp [scanGo])
    | cons c rest =>
      rw [scanGo] at h
      split at h
      · rename_i cap' rem hm
        rcases List.mem_cons.mp h with rfl | h
        · exact (tryMatch_decomp hm).2
        · exact ih rem cap h
      · exact ih rest cap h

theorem chainedIn_mem_decomp :
    ∀ {caps : List (List Char)} {h : List Char}, chainedIn h caps →
      ∀ cap ∈ caps, ∃ x y, h = x ++ cap ++ y := by
  intro caps
  induction caps with
  | nil => intro h _ cap hc; exact absurd hc (by simp)
  | cons c cs ih =>
    intro h hch cap hc
    obtain ⟨x, rest, hx, hrest⟩ := hch
    rcases List.mem_cons.mp hc with rfl | hc
    · exact ⟨x, rest, hx⟩
    · obtain ⟨x', y', hx'⟩ := ih hrest cap hc
      exact ⟨x ++ c ++ x', y', by rw [hx, hx']; simp [List.append_assoc]⟩

/-- C6.  Every string returned by `extract_media_urls` is a substring of
the input and contains `/sites/default/files/`; the returned strings appear
in the input in order (duplicates included, witnessed by the non-overlapping
decomposition `chainedIn`); the function is deterministic; and a concrete
input with the same URL twice yields it twice, in order of appearance. -/
theorem extract_media_urls_spec :
    (∀ html : String, ∀ u ∈ extract_media_urls html,
      (∃ pre post : String, html = pre ++ u ++ post) ∧
      ∃ x y : String, u = x ++ "/sites/default/files/" ++ y) ∧
    (∀ html : String, chainedIn html.data ((extract_media_urls html).map String.data)) ∧
    (∀ html : String, extract_media_urls html = extract_media_urls html) ∧
    extract_media_urls
        "<img src=\"/sites/default/files/a.jpg\"> <a href='/sites/default/files/a.jpg'>x</a>" =
      ["/sites/default/files/a.jpg", "/sites/default/files/a.jpg"] := by
  have hmapdata : ∀ html : String,
      (extract_media_urls html).map String.data = scanGo html.data.length html.data := by
    intro html
    simp [extract_media_urls, List.map_map, Function.comp_def]
  refine ⟨fun html u hu => ?_, fun html => ?_, fun _ => rfl, by decide⟩
  · obtain ⟨cap, hcap, rfl⟩ := List.mem_map.mp hu
    constructor
    · obtain ⟨x, y, hxy⟩ :=
        chainedIn_mem_decomp (scanGo_chained html.data.length html.data) cap hcap
      refine ⟨String.mk x, String.mk y, ?_⟩
      apply String.ext
      simp only [String.data_append]
      exact hxy
    · obtain ⟨a, b, hab⟩ := scanGo_contains html.data.length html.data cap hcap
      refine ⟨String.mk a, String.mk b, ?_⟩
      apply String.ext
      simp only [String.data_append]
      exact hab
  · rw [hmapdata]
    exact scanGo_chained html.data.length html.data

/-! ### C3 and C9: `clubs_with_microsites` -/

theorem mem_clubs_iff (db : Db) (r : ClubMicrosite) :
    r ∈ clubs_with_microsites db ↔ r ∈ titleMatchRows db ∨ r ∈ overrideRows db := by
  unfold clubs_with_microsites
  rw [List.mem_insertionSort, List.mem_dedup, List.mem_append]

theorem mem_titleMatchRows {db : Db} {r : ClubMicrosite} :
    r ∈ titleMatchRows db ↔
      ∃ hp ∈ db.nodes, hp.type = "microsite_homepage" ∧
        ∃ club ∈ db.nodes, club.title = hp.title ∧ club.type = "ssp_club" ∧
          r = clubRowOf db club hp := by
  simp only [titleMatchRows, List.mem_flatMap, List.mem_filter, List.mem_map,
    Bool.and_eq_true, beq_iff_eq]
  constructor
  · rintro ⟨hp, ⟨hhp, hty⟩, club, ⟨hclub, hcond⟩, heq⟩
    exact ⟨hp, hhp, hty, club, hclub, hcond.1, hcond.2, heq.symm⟩
  · rintro ⟨hp, hhp, hty, club, hclub, htitle, htype, rfl⟩
    exact ⟨hp, ⟨hhp, hty⟩, club, ⟨hclub, htitle, htype⟩, rfl⟩

theorem mem_overrideRows {db : Db} {r : ClubMicrosite} :
    r ∈ overrideRows db ↔
      ∃ club ∈ db.nodes, club.type = "ssp_club" ∧
        ∃ hp ∈ db.nodes, hp.type = "microsite_homepage" ∧
          ((club.nid, hp.nid) = (51008, 55629) ∨ (club.nid, hp.nid) = (47596, 50698)) ∧
          r = clubRowOf db club hp := by
  simp only [overrideRows, List.mem_flatMap, List.mem_filter, List.mem_map,
    Bool.and_eq_true, beq_iff_eq]
  constructor
  · rintro ⟨club, ⟨hclub, hty⟩, hp, ⟨hhp, hcond⟩, heq⟩
    refine ⟨club, hclub, hty, hp, hhp, hcond.2, ?_, heq.symm⟩
    have := hcond.1
    simpa [overridePairs] using this
  · rintro ⟨club, hclub, htype, hp, hhp, hty, hov, rfl⟩
    exact ⟨club, ⟨hclub, htype⟩, hp, ⟨hhp, by simpa [overridePairs] using hov, hty⟩, rfl⟩

/-- The database with every table empty. -/
def emptyDb : Db :=
  { nodes := [], clubNumbers := [], menuLinks := [], pageTitles := [], bodies := [],
    summaries := [], fieldBodies := [], heroRefs := [], navRefs := [], mediaImages := [],
    files := [], featuredRefs := [], headlines := [], summaryTexts := [], buttons := [],
    imageRefs := [] }

/-- Example store for the C3 binding scenario: clubs A(nid 1, "X") and
B(nid 51008, "Y"); homepages H1(nid 2, "X") and H2(nid 55629, "Z"); the
override list of the code contains (51008, 55629). -/
def bindExDb : Db :=
  { emptyDb with
    nodes := [⟨1, "ssp_club", "X", 1⟩, ⟨51008, "ssp_club", "Y", 1⟩,
              ⟨2, "microsite_homepage", "X", 1⟩, ⟨55629, "microsite_homepage", "Z", 1⟩],
    clubNumbers := [(1, some 77)] }

/-- C3.  `clubs_with_microsites` returns exactly the (club, homepage) pairs
of type `ssp_club`/`microsite_homepage` with equal titles, unioned with the
fixed override pairs (51008, 55629) and (47596, 50698), both sides
re-validated against their type tags; in the claim's scenario both (A, H1)
(by title) and (B, H2) (by override) are returned. -/
theorem clubs_with_microsites_members :
    (∀ (db : Db) (cn hn : Nat),
      (∃ r ∈ clubs_with_microsites db, r.club_nid = cn ∧ r.homepage_nid = hn) ↔
      (∃ club ∈ db.nodes, ∃ hp ∈ db.nodes, club.nid = cn ∧ hp.nid = hn ∧
        club.type = "ssp_club" ∧ hp.type = "microsite_homepage" ∧
        (club.title = hp.title ∨
          (cn, hn) = (51008, 55629) ∨ (cn, hn) = (47596, 50698)))) ∧
    (∃ r ∈ clubs_with_microsites bindExDb, r.club_nid = 1 ∧ r.homepage_nid = 2) ∧
    (∃ r ∈ clubs_with_microsites bindExDb, r.club_nid = 51008 ∧ r.homepage_nid = 55629) := by
  refine ⟨fun db cn hn => ?_, by decide, by decide⟩
  constructor
  · rintro ⟨r, hr, rfl, rfl⟩
    rcases (mem_clubs_iff db r).mp hr with h | h
    · obtain ⟨hp, hhp, hty, club, hclub, htitle, htype, rfl⟩ := mem_titleMatchRows.mp h
      exact ⟨club, hclub, hp, hhp, rfl, rfl, htype, hty, Or.inl htitle⟩
    · obtain ⟨club, hclub, htype, hp, hhp, hty, hov, rfl⟩ := mem_overrideRows.mp h
      exact ⟨club, hclub, hp, hhp, rfl, rfl, htype, hty, Or.inr hov⟩
  · rintro ⟨club, hclub, hp, hhp, rfl, rfl, htc, hth, hcond⟩
    refine ⟨clubRowOf db club hp, ?_, rfl, rfl⟩
    apply (mem_clubs_iff db _).mpr
    rcases hcond with htitle | hov
    · exact Or.inl (mem_titleMatchRows.mpr ⟨hp, hhp, hth, club, hclub, htitle, htc, rfl⟩)
    · exact Or.inr (mem_overrideRows.mpr ⟨club, hclub, htc, hp, hhp, hth, hov, rfl⟩)

theorem clubs_invariant (db : Db) :
    ∀ r ∈ clubs_with_microsites db, r.is_intraclub = r.club_number.isNone := by
  intro r hr
  rcases (mem_clubs_iff db r).mp hr with h | h
  · obtain ⟨hp, _, _, club, _, _, _, rfl⟩ := mem_titleMatchRows.mp h
    rfl
  · obtain ⟨club, _, _, hp, _, _, _, rfl⟩ := mem_overrideRows.mp h
    rfl

/-- Business numbers ascending with absent numbers last: strict part. -/
def numNullsLastLt : Option Int → Option Int → Prop
  | some x, some y => x < y
  | some _, none => True
  | none, _ => False

theorem clubKey_le_spec {a b : ClubMicrosite}
    (ha : a.is_intraclub = a.club_number.isNone)
    (hb : b.is_intraclub = b.club_number.isNone)
    (h : keyRel clubSortKey a b) :
    (a.is_intraclub = false ∧ b.is_intraclub = true) ∨
      (a.is_intraclub = b.is_intraclub ∧
        (numNullsLastLt a.club_number b.club_number ∨
          (a.club_number = b.club_number ∧ a.club_name ≤ b.club_name))) := by
  unfold keyRel clubSortKey at h
  rw [Prod.Lex.le_iff] at h
  cases hA : a.is_intraclub <;> cases hB : b.is_intraclub <;> rw [hA] at ha h <;> rw [hB] at hb h
  · -- both regular clubs: numbers present
    obtain ⟨x, hx⟩ : ∃ x, a.club_number = some x := by
      cases hca : a.club_number
      · rw [hca] at ha; simp at ha
      · exact ⟨_, rfl⟩
    obtain ⟨y, hy⟩ : ∃ y, b.club_number = some y := by
      cases hcb : b.club_number
      · rw [hcb] at hb; simp at hb
      · exact ⟨_, rfl⟩
    rw [hx, hy] at h ⊢
    refine Or.inr ⟨rfl, ?_⟩
    rcases h with h | ⟨heq, hname⟩
    · rw [Prod.Lex.lt_iff] at h
      rcases h with h | ⟨_, h⟩
      · simp at h
      · rw [Prod.Lex.lt_iff] at h
        rcases h with h | ⟨_, h⟩
        · simp [nullFirstKey] at h
        · exact Or.inl (by simpa [nullFirstKey, numNullsLastLt] using h)
    · have hxy : x = y := by simpa [nullFirstKey] using heq
      exact Or.inr ⟨by rw [hxy], by simpa using hname⟩
  · exact Or.inl ⟨rfl, rfl⟩
  · -- a intraclub, b regular: impossible under the lex order
    exfalso
    rcases h with h | ⟨heq, _⟩
    · rw [Prod.Lex.lt_iff] at h
      rcases h with h | ⟨hfst, _⟩
      · simp at h
      · simp at hfst
    · rw [toLex_inj, Prod.mk.injEq] at heq
      simp at heq
  · -- both intraclubs: numbers absent
    have hca : a.club_number = none := by
      cases hc : a.club_number
      · rfl
      · rw [hc] at ha; simp at ha
    have hcb : b.club_number = none := by
      cases hc : b.club_number
      · rfl
      · rw [hc] at hb; simp at hb
    rw [hca, hcb] at h ⊢
    refine Or.inr ⟨rfl, Or.inr ⟨rfl, ?_⟩⟩
    rcases h with h | ⟨_, hname⟩
    · rw [Prod.Lex.lt_iff] at h
      rcases h with h | ⟨_, h⟩
      · simp at h
      · rw [Prod.Lex.lt_iff] at h
        rcases h with h | ⟨_, h⟩
        · simp [nullFirstKey] at h
        · simp [nullFirstKey] at h
    · simpa using hname

/-- C9.  The list returned by `clubs_with_microsites` is sorted by the
intraclub flag ascending, then by business number ascending with absent
numbers last, then by club name ascending. -/
theorem clubs_with_microsites_sorted (db : Db) :
    (clubs_with_microsites db).Pairwise (fun a b =>
      (a.is_intraclub = false ∧ b.is_intraclub = true) ∨
      (a.is_intraclub = b.is_intraclub ∧
        (numNullsLastLt a.club_number b.club_number ∨
          (a.club_number = b.club_number ∧ a.club_name ≤ b.club_name)))) := by
  have hs : (clubs_with_microsites db).Pairwise (keyRel clubSortKey) :=
    List.sorted_insertionSort (keyRel clubSortKey) _
  exact hs.imp_of_mem fun {a b} hma hmb h =>
    clubKey_le_spec (clubs_invariant db a hma) (clubs_invariant db b hmb) h

/-! ### C2, C8, C10: `pages_for_club` -/

theorem withFeatured_nid (db : Db) (p : MicrositePage) : (withFeatured db p).nid = p.nid := by
  simp only [withFeatured]
  split
  · rfl
  · split <;> rfl

theorem withFeatured_status (db : Db) (p : MicrositePage) :
    (withFeatured db p).status = p.status := by
  simp only [withFeatured]
  split
  · rfl
  · split <;> rfl

theorem micrositePageOfRow_nid (r : PageRow) : (micrositePageOfRow r).nid = r.nid := rfl

theorem pageRowOf_nid (db : Db) (nd : Node) (m : Option MenuLink) :
    (pageRowOf db nd m).nid = nd.nid := rfl

theorem micrositePageOfRow_status (r : PageRow) :
    (micrositePageOfRow r).status = (r.status == 1) := rfl

theorem any_eq_true_of_find?_eq_some {α} {l : List α} {p : α → Bool} {a : α}
    (h : l.find? p = some a) : l.any p = true := by
  simp only [List.any_eq_true]
  exact ⟨a, List.mem_of_find?_eq_some h, List.find?_some h⟩

theorem any_eq_false_of_find?_eq_none {α} {l : List α} {p : α → Bool}
    (h : l.find? p = none) : l.any p = false := by
  simp only [List.find?_eq_none] at h
  simp only [List.any_eq_false]
  intro x hx
  simpa using h x hx

theorem mem_childRows {db : Db} {pref : String} {r : PageRow} :
    r ∈ childRows db pref ↔
      ∃ m ∈ db.menuLinks,
        m.menuName = "microsites" ∧ m.parent = pref ∧ m.enabled = 1 ∧
        ∃ nd ∈ db.nodes, m.linkUri = "entity:node/" ++ toString nd.nid ∧
          r = pageRowOf db nd (some m) := by
  simp only [childRows, List.mem_flatMap, List.mem_filter, List.mem_map,
    Bool.and_eq_true, beq_iff_eq]
  constructor
  · rintro ⟨m, ⟨hm, ⟨hname, hpar⟩, hen⟩, nd, ⟨hnd, hlink⟩, heq⟩
    exact ⟨m, hm, hname, hpar, hen, nd, hnd, hlink, heq.symm⟩
  · rintro ⟨m, hm, hname, hpar, hen, nd, hnd, hlink, rfl⟩
    exact ⟨m, ⟨hm, ⟨hname, hpar⟩, hen⟩, nd, ⟨hnd, hlink⟩, rfl⟩

/-- The node-id sequence of `pages_for_club` in normal form. -/
theorem pages_for_club_nids (db : Db) (hnid : Nat) :
    (pages_for_club db hnid).map (fun p => p.nid) =
      (match db.nodes.find? (fun nd => nd.nid == hnid) with
        | some nd => [nd.nid]
        | none => []) ++
      (match homepageUuid db hnid with
        | some uuid =>
          (List.insertionSort (keyRel childSortKey)
            (childRows db ("menu_link_content:" ++ uuid))).map (fun r => r.nid)
        | none => []) := by
  unfold pages_for_club
  cases hfind : db.nodes.find? (fun nd => nd.nid == hnid) <;>
    cases huuid : homepageUuid db hnid <;>
      simp [withFeatured_nid, micrositePageOfRow_nid, pageRowOf_nid, List.map_map,
        Function.comp_def]

/-- Example store for the menu-walk scenario of the claims: homepage
nid 100 with menu uuid m1, enabled children About (nid 200, weight 1) and
Contact (nid 300, weight 0). -/
def menuExDb : Db :=
  { emptyDb with
    nodes := [⟨100, "microsite_homepage", "Home", 1⟩,
              ⟨200, "microsite_content", "About", 1⟩,
              ⟨300, "microsite_content", "Contact", 1⟩],
    menuLinks :=
      [⟨1, "m1", "entity:node/100", "microsites", "Home", 0, "", 1⟩,
       ⟨2, "u2", "entity:node/200", "microsites", "About", 1, "menu_link_content:m1", 1⟩,
       ⟨3, "u3", "entity:node/300", "microsites", "Contact", 0, "menu_link_content:m1", 1⟩] }

/-- Example store with a homepage that has a node row but no menu entry. -/
def noMenuDb : Db :=
  { emptyDb with nodes := [⟨5, "microsite_homepage", "Home", 1⟩] }

/-- Example store with a dangling menu entry: the homepage node row for
nid 1 is absent, but its menu entry exists and has an enabled child whose
node row (nid 2) exists. -/
def danglingDb : Db :=
  { emptyDb with
    nodes := [⟨2, "microsite_content", "Child", 1⟩],
    menuLinks :=
      [⟨1, "u1", "entity:node/1", "microsites", "Home", 0, "", 1⟩,
       ⟨2, "u2", "entity:node/2", "microsites", "Child", 0, "menu_link_content:u1", 1⟩] }

/-- C8 counterexample.  When the requested homepage node row does not
exist but its menu entry does, `pages_for_club` is not the empty list: it
still returns the enabled children (here the child page nid 2). -/
theorem pages_for_club_missing_node_cex :
    danglingDb.nodes.find? (fun nd => nd.nid == 1) = none ∧
      (pages_for_club danglingDb 1).map (fun p => p.nid) = [2] := by
  exact ⟨by decide, by decide⟩

/-- C8 (amended).  Absence is not an error: when the homepage has no menu
entry in the `microsites` namespace the child set is empty, so the result
is exactly the homepage page when its node row exists and empty otherwise;
a missing homepage node row only omits the homepage page (an existing menu
entry still contributes its enabled children). -/
theorem pages_for_club_no_menu_entry (db : Db) (hnid : Nat)
    (h : homepageUuid db hnid = none) :
    (pages_for_club db hnid).map (fun p => p.nid) =
      if db.nodes.any (fun nd => nd.nid == hnid) then [hnid] else [] := by
  rw [pages_for_club_nids, h]
  cases hfind : db.nodes.find? (fun nd => nd.nid == hnid) with
  | none =>
    have ha := any_eq_false_of_find?_eq_none hfind
    simp [ha]
  | some nd =>
    have ha := any_eq_true_of_find?_eq_some hfind
    have hn : nd.nid = hnid := by simpa using List.find?_some hfind
    simp [ha, hn]

/-- C8 witness: the amended theorem applied to a store whose homepage
(nid 5) has a node row but no menu entry. -/
theorem pages_for_club_no_menu_entry_witness :
    homepageUuid noMenuDb 5 = none ∧
      (pages_for_club noMenuDb 5).map (fun p => p.nid) =
        (if noMenuDb.nodes.any (fun nd => nd.nid == 5) then [5] else []) :=
  ⟨by decide, pages_for_club_no_menu_entry noMenuDb 5 (by decide)⟩

/-- Menu weights ascending, absent weight first (MySQL NULL order): strict part. -/
def optIntLt : Option Int → Option Int → Prop
  | none, some _ => True
  | some x, some y => x < y
  | _, _ => False

theorem childKey_le_spec {a b : PageRow} (h : keyRel childSortKey a b) :
    optIntLt a.menu_weight b.menu_weight ∨
      (a.menu_weight = b.menu_weight ∧ a.title ≤ b.title) := by
  unfold keyRel childSortKey at h
  rw [Prod.Lex.le_iff] at h
  rcases h with h | ⟨heq, hname⟩
  · left
    rw [Prod.Lex.lt_iff] at h
    cases hA : a.menu_weight <;> cases hB : b.menu_weight <;> rw [hA, hB] at h
    · rcases h with h | ⟨_, h⟩ <;> simp [nullFirstKey] at h
    · trivial
    · rcases h with h | ⟨hf, _⟩
      · simp [nullFirstKey] at h
      · simp [nullFirstKey] at hf
    · rename_i x y
      show x < y
      rcases h with h | ⟨_, h⟩
      · simp [nullFirstKey] at h
      · simpa [nullFirstKey] using h
  · right
    refine ⟨?_, by simpa using hname⟩
    have hk : nullFirstKey a.menu_weight = nullFirstKey b.menu_weight := by simpa using heq
    have hinj : ∀ x y : Option Int, nullFirstKey x = nullFirstKey y → x = y := by
      intro x y hxy
      cases x <;> cases y
      · rfl
      · exact absurd (congrArg Prod.fst hxy) (by simp [nullFirstKey])
      · exact absurd (congrArg Prod.fst hxy) (by simp [nullFirstKey])
      · simpa [nullFirstKey] using hxy
    exact hinj _ _ hk

/-- C2.  `pages_for_club` returns the homepage page first (exactly when its
node row exists), followed by exactly the pages whose menu entry in the
`microsites` namespace is an enabled child of the homepage's menu entry,
ordered by menu weight ascending then node title ascending; in the claim's
scenario (homepage 100; children 200 "About" weight 1 and 300 "Contact"
weight 0) the returned order is [100, 300, 200]. -/
theorem pages_for_club_order :
    (∀ (db : Db) (hnid : Nat), ∃ (hp : List MicrositePage) (rows : List PageRow),
      pages_for_club db hnid =
        hp ++ rows.map (fun r => withFeatured db (micrositePageOfRow r)) ∧
      (hp.map (fun p => p.nid) =
        if db.nodes.any (fun nd => nd.nid == hnid) then [hnid] else []) ∧
      rows.Pairwise (fun a b =>
        optIntLt a.menu_weight b.menu_weight ∨
          (a.menu_weight = b.menu_weight ∧ a.title ≤ b.title)) ∧
      (∀ r ∈ rows, ∃ u, homepageUuid db hnid = some u ∧
        ∃ m ∈ db.menuLinks, m.menuName = "microsites" ∧
          m.parent = "menu_link_content:" ++ u ∧ m.enabled = 1 ∧
          m.linkUri = "entity:node/" ++ toString r.nid ∧
          ∃ nd ∈ db.nodes, nd.nid = r.nid) ∧
      (∀ u, homepageUuid db hnid = some u →
        ∀ m ∈ db.menuLinks, m.menuName = "microsites" →
          m.parent = "menu_link_content:" ++ u → m.enabled = 1 →
          ∀ nd ∈ db.nodes, m.linkUri = "entity:node/" ++ toString nd.nid →
            ∃ r ∈ rows, r.nid = nd.nid)) ∧
    (pages_for_club menuExDb 100).map (fun p => p.nid) = [100, 300, 200] := by
  refine ⟨fun db hnid => ?_, by decide⟩
  cases hfind : db.nodes.find? (fun nd => nd.nid == hnid) with
  | some nd =>
    cases huuid : homepageUuid db hnid with
    | some u =>
      refine ⟨[withFeatured db (micrositePageOfRow (pageRowOf db nd (menuOf db hnid)))],
        List.insertionSort (keyRel childSortKey) (childRows db ("menu_link_content:" ++ u)),
        ?_, ?_, ?_, ?_, ?_⟩
      · simp [pages_for_club, hfind, huuid]
      · have ha := any_eq_true_of_find?_eq_some hfind
        have hn : nd.nid = hnid := by simpa using List.find?_some hfind
        simp [ha, withFeatured_nid, micrositePageOfRow_nid, pageRowOf_nid, hn]
      · exact (List.sorted_insertionSort (keyRel childSortKey) _).imp_of_mem
          fun {a b} _ _ h => childKey_le_spec h
      · intro r hr
        rw [List.mem_insertionSort] at hr
        obtain ⟨m, hm, hname, hpar, hen, nd', hnd', hlink, rfl⟩ := mem_childRows.mp hr
        exact ⟨u, rfl, m, hm, hname, hpar, hen, by rw [pageRowOf_nid]; exact hlink,
          nd', hnd', rfl⟩
      · intro u' hu' m hm hname hpar hen nd' hnd' hlink
        obtain rfl : u = u' := Option.some.inj hu'
        refine ⟨pageRowOf db nd' (some m), ?_, rfl⟩
        rw [List.mem_insertionSort]
        exact mem_childRows.mpr ⟨m, hm, hname, hpar, hen, nd', hnd', hlink, rfl⟩
    | none =>
      refine ⟨[withFeatured db (micrositePageOfRow (pageRowOf db nd (menuOf db hnid)))],
        [], ?_, ?_, List.Pairwise.nil, fun r hr => absurd hr (by simp), ?_⟩
      · simp [pages_for_club, hfind, huuid]
      · have ha := any_eq_true_of_find?_eq_some hfind
        have hn : nd.nid = hnid := by simpa using List.find?_some hfind
        simp [ha, withFeatured_nid, micrositePageOfRow_nid, pageRowOf_nid, hn]
      · intro u' hu'
        simp at hu'
  | none =>
    cases huuid : homepageUuid db hnid with
    | some u =>
      refine ⟨[],
        List.insertionSort (keyRel childSortKey) (childRows db ("menu_link_content:" ++ u)),
        ?_, ?_, ?_, ?_, ?_⟩
      · simp [pages_for_club, hfind, huuid]
      · have ha := any_eq_false_of_find?_eq_none hfind
        simp [ha]
      · exact (List.sorted_insertionSort (keyRel childSortKey) _).imp_of_mem
          fun {a b} _ _ h => childKey_le_spec h
      · intro r hr
        rw [List.mem_insertionSort] at hr
        obtain ⟨m, hm, hname, hpar, hen, nd', hnd', hlink, rfl⟩ := mem_childRows.mp hr
        exact ⟨u, rfl, m, hm, hname, hpar, hen, by rw [pageRowOf_nid]; exact hlink,
          nd', hnd', rfl⟩
      · intro u' hu' m hm hname hpar hen nd' hnd' hlink
        obtain rfl : u = u' := Option.some.inj hu'
        refine ⟨pageRowOf db nd' (some m), ?_, rfl⟩
        rw [List.mem_insertionSort]
        exact mem_childRows.mpr ⟨m, hm, hname, hpar, hen, nd', hnd', hlink, rfl⟩
    | none =>
      refine ⟨[], [], ?_, ?_, List.Pairwise.nil, fun r hr => absurd hr (by simp), ?_⟩
      · simp [pages_for_club, hfind, huuid]
      · have ha := any_eq_false_of_find?_eq_none hfind
        simp [ha]
      · intro u' hu'
        simp at hu'

/-- A node with its published status replaced by `f` of its id. -/
def statusNode (f : Nat → Int) (nd : Node) : Node := { nd with status := f nd.nid }

/-- The same store with every node's published status replaced. -/
def mapNodeStatus (f : Nat → Int) (db : Db) : Db :=
  { db with nodes := db.nodes.map (statusNode f) }

/-- A page row with its status replaced by `f` of its node id. -/
def statusRow (f : Nat → Int) (r : PageRow) : PageRow := { r with status := f r.nid }

theorem pageRowOf_mapStatus (db : Db) (f : Nat → Int) (nd : Node) (m : Option MenuLink) :
    pageRowOf (mapNodeStatus f db) (statusNode f nd) m = statusRow f (pageRowOf db nd m) := rfl

theorem childRows_mapStatus (db : Db) (f : Nat → Int) (pref : String) :
    childRows (mapNodeStatus f db) pref = (childRows db pref).map (statusRow f) := by
  unfold childRows
  rw [List.map_flatMap]
  have hinner : ∀ m : MenuLink,
      (((mapNodeStatus f db).nodes.filter
          (fun nd => m.linkUri == "entity:node/" ++ toString nd.nid)).map
        (fun nd => pageRowOf (mapNodeStatus f db) nd (some m))) =
      (((db.nodes.filter (fun nd => m.linkUri == "entity:node/" ++ toString nd.nid)).map
        (fun nd => pageRowOf db nd (some m))).map (statusRow f)) := by
    intro m
    show ((db.nodes.map (statusNode f)).filter _).map _ = _
    rw [List.filter_map, List.map_map, List.map_map]
    rfl
  exact congrArg _ (funext hinner)

theorem orderedInsert_map {α β γ : Type _} [LinearOrder γ] (k : α → γ) (g : β → α)
    (a : β) (l : List β) :
    List.orderedInsert (keyRel k) (g a) (l.map g) =
      (List.orderedInsert (keyRel (fun x => k (g x))) a l).map g := by
  induction l with
  | nil => rfl
  | cons b t ih =>
    simp only [List.map_cons, List.orderedInsert]
    by_cases h : keyRel (fun x => k (g x)) a b
    · have h' : keyRel k (g a) (g b) := h
      rw [if_pos h', if_pos h]
      simp
    · have h' : ¬keyRel k (g a) (g b) := h
      rw [if_neg h', if_neg h]
      simp only [List.map_cons]
      rw [ih]

theorem insertionSort_map {α β γ : Type _} [LinearOrder γ] (k : α → γ) (g : β → α)
    (l : List β) :
    List.insertionSort (keyRel k) (l.map g) =
      (List.insertionSort (keyRel (fun x => k (g x))) l).map g := by
  induction l with
  | nil => rfl
  | cons b t ih =>
    simp only [List.map_cons, List.insertionSort]
    rw [ih, orderedInsert_map]

/-- The menu-walk example store with every page unpublished (status 0). -/
def unpubDb : Db :=
  { emptyDb with
    nodes := [⟨100, "microsite_homepage", "Home", 0⟩,
              ⟨200, "microsite_content", "About", 0⟩,
              ⟨300, "microsite_content", "Contact", 0⟩],
    menuLinks :=
      [⟨1, "m1", "entity:node/100", "microsites", "Home", 0, "", 1⟩,
       ⟨2, "u2", "entity:node/200", "microsites", "About", 1, "menu_link_content:m1", 1⟩,
       ⟨3, "u3", "entity:node/300", "microsites", "Contact", 0, "menu_link_content:m1", 1⟩] }

/-- C10.  `pages_for_club` applies no filter on published status: the set
and order of returned node ids is invariant under arbitrary changes of
every node's stored status, every returned page stems from a node row of
the store with the page's status true exactly when that row's stored
status equals 1, and the all-unpublished example store still yields all
three pages, with status false. -/
theorem pages_for_club_status :
    (∀ (db : Db) (f : Nat → Int) (hnid : Nat),
      (pages_for_club (mapNodeStatus f db) hnid).map (fun p => p.nid) =
        (pages_for_club db hnid).map (fun p => p.nid)) ∧
    (∀ (db : Db) (hnid : Nat), ∀ p ∈ pages_for_club db hnid,
      ∃ nd ∈ db.nodes, nd.nid = p.nid ∧ (p.status = true ↔ nd.status = 1)) ∧
    (pages_for_club unpubDb 100).map (fun p => (p.nid, p.status)) =
      [(100, false), (300, false), (200, false)] := by
  refine ⟨fun db f hnid => ?_, fun db hnid p hp => ?_, by decide⟩
  · rw [pages_for_club_nids, pages_for_club_nids]
    have hf : (mapNodeStatus f db).nodes.find? (fun nd => nd.nid == hnid) =
        (db.nodes.find? (fun nd => nd.nid == hnid)).map (statusNode f) := by
      show (db.nodes.map (statusNode f)).find? _ = _
      rw [List.find?_map]
      rfl
    have hu : homepageUuid (mapNodeStatus f db) hnid = homepageUuid db hnid := rfl
    rw [hf, hu]
    have hchild : ∀ uuid : String,
        (List.insertionSort (keyRel childSortKey)
          (childRows (mapNodeStatus f db) ("menu_link_content:" ++ uuid))).map
            (fun r => r.nid) =
        (List.insertionSort (keyRel childSortKey)
          (childRows db ("menu_link_content:" ++ uuid))).map (fun r => r.nid) := by
      intro uuid
      rw [childRows_mapStatus, insertionSort_map childSortKey (statusRow f)]
      show (List.map (fun r => r.nid) (List.map (statusRow f)
        (List.insertionSort (keyRel childSortKey)
          (childRows db ("menu_link_content:" ++ uuid))))) = _
      rw [List.map_map]
      rfl
    cases db.nodes.find? (fun nd => nd.nid == hnid) <;>
      cases huuid : homepageUuid db hnid <;> simp [hchild, statusNode]
  · simp only [pages_for_club] at hp
    rcases List.mem_append.mp hp with h | h
    · cases hfind : db.nodes.find? (fun nd => nd.nid == hnid) with
      | none =>
        rw [hfind] at h
        simp at h
      | some nd =>
        rw [hfind] at h
        simp only [List.mem_singleton] at h
        subst h
        refine ⟨nd, List.mem_of_find?_eq_some hfind, ?_, ?_⟩
        · rw [withFeatured_nid, micrositePageOfRow_nid, pageRowOf_nid]
        · rw [withFeatured_status, micrositePageOfRow_status]
          exact beq_iff_eq
    · cases huuid : homepageUuid db hnid with
      | none =>
        rw [huuid] at h
        simp at h
      | some u =>
        rw [huuid] at h
        simp only [List.mem_map, List.mem_insertionSort] at h
        obtain ⟨r, hr, rfl⟩ := h
        obtain ⟨m, hm, _, _, _, nd, hnd, _, rfl⟩ := mem_childRows.mp hr
        refine ⟨nd, hnd, ?_, ?_⟩
        · rw [withFeatured_nid, micrositePageOfRow_nid, pageRowOf_nid]
        · rw [withFeatured_status, micrositePageOfRow_status]
          exact beq_iff_eq

/-! ### C4: the Embedded-Fragment Renderer -/

/-- Example store with one featured-pages paragraph (target 10) carrying
only the headline "Welcome". -/
def welcomeDb : Db :=
  { emptyDb with featuredRefs := [⟨1, 0, 10⟩], headlines := [(10, "Welcome")] }

/-- C4.  Each embedded fragment appends to the markup buffer, in this
order: an image element when an image path is present, a heading when a
headline is present, the raw text block newline-terminated when present,
and a link whose text is the button title or else the URI itself when a
button URI is present; a page with no fragments yields empty featured
content and its body is left unchanged; a fragment with only the headline
"Welcome" contributes exactly "<h3>Welcome</h3>\n". -/
theorem featured_render_spec :
    (∀ (html : String) (row : FeaturedPageRow),
      renderFeaturedRow html row =
        html ++
        (match row.image_uri with
          | some uri =>
            "<p><img src=\"" ++ rustReplace uri "public://" "/sites/default/files/" ++
              "\" alt=\"\"></p>\n"
          | none => "") ++
        (match row.headline with
          | some headline => "<h3>" ++ headline ++ "</h3>\n"
          | none => "") ++
        (match row.summary_text_2 with
          | some content => content ++ "\n"
          | none => "") ++
        (match row.button_uri with
          | some uri =>
            "<p><a href=\"" ++ uri ++ "\">" ++
              (match row.button_title with
                | some t => t
                | none => uri) ++ "</a></p>\n"
          | none => "")) ∧
    (∀ (db : Db) (nid : Nat),
      db.featuredRefs.filter (fun r => r.entity_id == nid) = [] →
        featured_pages_content db nid = "") ∧
    (∀ (db : Db) (p : MicrositePage), featured_pages_content db p.nid = "" →
      withFeatured db p = p) ∧
    featured_pages_content welcomeDb 1 = "<h3>Welcome</h3>\n" := by
  refine ⟨fun html row => ?_, fun db nid hf => ?_, fun db p hf => ?_, by decide⟩
  · obtain ⟨hl, st, bu, bt, iu⟩ := row
    cases hl <;> cases st <;> cases bu <;> cases bt <;> cases iu <;>
      simp only [renderFeaturedRow, Option.getD, String.append_assoc, String.append_empty,
        String.empty_append]
  · simp [featured_pages_content, hf, List.insertionSort]
  · have hemp : ("" : String).isEmpty = true := rfl
    simp [withFeatured, hf, hemp]

/-- C4 witness: the no-fragments parts of the claim applied to the empty
store at node id 3 and an arbitrary concrete page. -/
theorem featured_render_spec_witness :
    featured_pages_content emptyDb 3 = "" ∧
      withFeatured emptyDb
        { nid := 3, title := "t", body_html := "B", status := true, menu_id := none,
          menu_title := none, menu_weight := none, menu_parent := none,
          hero_image := none, nav_image := none } =
      { nid := 3, title := "t", body_html := "B", status := true, menu_id := none,
        menu_title := none, menu_weight := none, menu_parent := none,
        hero_image := none, nav_image := none } :=
  ⟨featured_render_spec.2.1 emptyDb 3 (by decide),
   featured_render_spec.2.2.1 emptyDb
     { nid := 3, title := "t", body_html := "B", status := true, menu_id := none,
       menu_title := none, menu_weight := none, menu_parent := none,
       hero_image := none, nav_image := none } (by decide)⟩

end ACI
